import Mathlib

/-!
Verification of `update_prices.py` (tjmpromos/pricing).

The script bulk-edits numeric price fields in JSON documents.  We embed its
core functions — `parse_percentage`, the price adjustment inside
`update_pricing_file`, `get_matching_files`, `interactive_file_selection`,
and the `__main__` control flow — as executable Lean definitions over
`List Char` (Python strings), `ℚ` (exact numeric values) and association
lists (JSON rows), and prove the specified properties about them.
-/

namespace UpdatePrices

/-! ### Price adjustment (update_pricing_file, lines 99–104)

`new_price = old_price * percentage_multiplier`
`new_price_ceiled = math.ceil(new_price * 100) / 100`.
Numeric values are embedded as exact rationals. -/

/-- The price adjustment applied to one numeric field:
multiply by the percentage multiplier, then ceil to the next cent. -/
def adjust (value mult : ℚ) : ℚ :=
  ((⌈value * mult * 100⌉ : ℤ) : ℚ) / 100

/-- Evaluation helper: the ceiling of a concrete rational. -/
theorem ceil_eval {q : ℚ} {z : ℤ} (h1 : (z : ℚ) - 1 < q) (h2 : q ≤ (z : ℚ)) :
    (⌈q⌉ : ℤ) = z :=
  Int.ceil_eq_iff.mpr ⟨h1, h2⟩

/-! #### Binary64 evaluation of the adjustment

The source performs the arithmetic in Python floats (IEEE 754 binary64),
not in exact rationals: every decimal literal and every product is rounded
to 53 bits, to the nearest representable value with ties to even.  We model
one rounding step exactly: for a positive value `q` whose binade gives it
the unit-in-the-last-place `2⁻ˢ` — equivalently `q * 2 ^ s ∈ [2^52, 2^53)`,
which each theorem below states and proves for its concrete inputs —
the binary64 result of `q` is `rnd s q`. -/

/-- Round a rational to the nearest integer, ties to even. -/
def roundHalfEven (q : ℚ) : ℤ :=
  if q - ⌊q⌋ < 1 / 2 then ⌊q⌋
  else if 1 / 2 < q - ⌊q⌋ then ⌊q⌋ + 1
  else if ⌊q⌋ % 2 = 0 then ⌊q⌋ else ⌊q⌋ + 1

/-- Binary64 rounding of a value whose unit-in-the-last-place is `2⁻ˢ`. -/
def rnd (s : ℕ) (q : ℚ) : ℚ :=
  (roundHalfEven (q * 2 ^ s) : ℚ) / 2 ^ s

/-- Evaluation helper: the floor of a concrete rational. -/
theorem floor_eval {q : ℚ} {z : ℤ} (h1 : (z : ℚ) ≤ q) (h2 : q < (z : ℚ) + 1) :
    (⌊q⌋ : ℤ) = z :=
  Int.floor_eq_iff.mpr ⟨h1, h2⟩

theorem rhe_up (z : ℤ) {q : ℚ} (h1 : (z : ℚ) ≤ q) (h2 : q < (z : ℚ) + 1)
    (h3 : 1 / 2 < q - z) : roundHalfEven q = z + 1 := by
  have hf : (⌊q⌋ : ℤ) = z := floor_eval h1 h2
  unfold roundHalfEven
  rw [hf, if_neg (by linarith), if_pos h3]

theorem rhe_down (z : ℤ) {q : ℚ} (h1 : (z : ℚ) ≤ q) (h2 : q < (z : ℚ) + 1)
    (h3 : q - z < 1 / 2) : roundHalfEven q = z := by
  have hf : (⌊q⌋ : ℤ) = z := floor_eval h1 h2
  unfold roundHalfEven
  rw [hf, if_pos h3]

theorem rhe_tie_odd (z : ℤ) {q : ℚ} (h1 : (z : ℚ) ≤ q) (h2 : q < (z : ℚ) + 1)
    (h3 : q - z = 1 / 2) (h4 : z % 2 = 1) : roundHalfEven q = z + 1 := by
  have hf : (⌊q⌋ : ℤ) = z := floor_eval h1 h2
  unfold roundHalfEven
  rw [hf, h3, if_neg (by norm_num), if_neg (by norm_num), if_neg (by omega)]

/-- Claim C1 (code bug).  The claim's exact ceiling gives
`adjust(10.00, 1.06) = 10.60`, but the source evaluates
`math.ceil(old_price * percentage_multiplier * 100)` in binary64, where the
literal `1.06` rounds up, `10 * 1.06 = 10.600000000000001` (a tie broken to
even), and `* 100 = 1060.0000000000002`, so `math.ceil` returns 1061 and
the program stores 10.61.  Each scale used is justified by the stated
binade bounds `q * 2 ^ s ∈ [2^52, 2^53)`. -/
theorem adjust_float64_overshoots_at_example :
    ((2 : ℚ) ^ 52 ≤ (1.06 : ℚ) * 2 ^ 52 ∧ (1.06 : ℚ) * 2 ^ 52 < 2 ^ 53) ∧
      ((2 : ℚ) ^ 52 ≤ 10 * rnd 52 1.06 * 2 ^ 49 ∧
        10 * rnd 52 1.06 * 2 ^ 49 < 2 ^ 53) ∧
      ((2 : ℚ) ^ 52 ≤ rnd 49 (10 * rnd 52 1.06) * 100 * 2 ^ 42 ∧
        rnd 49 (10 * rnd 52 1.06) * 100 * 2 ^ 42 < 2 ^ 53) ∧
      adjust 10 1.06 = 10.60 ∧
      (⌈rnd 42 (rnd 49 (10 * rnd 52 1.06) * 100)⌉ : ℤ) = 1061 := by
  have e1 : rnd 52 (1.06 : ℚ) = 4773815605012726 / 2 ^ 52 := by
    unfold rnd
    rw [rhe_up 4773815605012725 (by norm_num) (by norm_num) (by norm_num)]
    norm_num
  have e2 : rnd 49 (10 * rnd 52 (1.06 : ℚ)) = 5967269506265908 / 2 ^ 49 := by
    rw [e1]
    unfold rnd
    rw [rhe_tie_odd 5967269506265907 (by norm_num) (by norm_num) (by norm_num)
      (by norm_num)]
    norm_num
  have e3 : rnd 42 (rnd 49 (10 * rnd 52 (1.06 : ℚ)) * 100) =
      4661929301770241 / 2 ^ 42 := by
    rw [e2]
    unfold rnd
    rw [rhe_up 4661929301770240 (by norm_num) (by norm_num) (by norm_num)]
    norm_num
  refine ⟨⟨by norm_num, by norm_num⟩, ⟨?_, ?_⟩, ⟨?_, ?_⟩, by norm_num [adjust],
    ?_⟩
  · rw [e1]; norm_num
  · rw [e1]; norm_num
  · rw [e2]; norm_num
  · rw [e2]; norm_num
  · rw [e3]
    exact ceil_eval (by norm_num) (by norm_num)

/-- Claim C2 (code bug).  The raw product `0.07 * 1.0` is an exact number
of cents, and the claim's exact ceiling leaves it at 0.07
(`adjust 0.07 1.0 = 0.07`); but the source's naive `math.ceil` runs in
binary64, where the literal `0.07` rounds up, so `0.07 * 1.0 * 100`
evaluates to `7.000000000000001` and `math.ceil` returns 8: the program
bumps the price to 0.08.  Each scale used is justified by the stated
binade bounds `q * 2 ^ s ∈ [2^52, 2^53)`. -/
theorem adjust_float64_bumps_exact_cent :
    ((2 : ℚ) ^ 52 ≤ (0.07 : ℚ) * 2 ^ 56 ∧ (0.07 : ℚ) * 2 ^ 56 < 2 ^ 53) ∧
      ((2 : ℚ) ^ 52 ≤ rnd 56 0.07 * 1.0 * 2 ^ 56 ∧
        rnd 56 0.07 * 1.0 * 2 ^ 56 < 2 ^ 53) ∧
      ((2 : ℚ) ^ 52 ≤ rnd 56 (rnd 56 0.07 * 1.0) * 100 * 2 ^ 50 ∧
        rnd 56 (rnd 56 0.07 * 1.0) * 100 * 2 ^ 50 < 2 ^ 53) ∧
      (0.07 : ℚ) * 1.0 * 100 = 7 ∧
      adjust 0.07 1.0 = 0.07 ∧
      (⌈rnd 50 (rnd 56 (rnd 56 (0.07 : ℚ) * 1.0) * 100)⌉ : ℤ) = 8 := by
  have e4 : rnd 56 (0.07 : ℚ) = 5044031582654956 / 2 ^ 56 := by
    unfold rnd
    rw [rhe_up 5044031582654955 (by norm_num) (by norm_num) (by norm_num)]
    norm_num
  have e5 : rnd 56 (rnd 56 (0.07 : ℚ) * 1.0) = 5044031582654956 / 2 ^ 56 := by
    rw [e4]
    unfold rnd
    rw [rhe_down 5044031582654956 (by norm_num) (by norm_num) (by norm_num)]
    norm_num
  have e6 : rnd 50 (rnd 56 (rnd 56 (0.07 : ℚ) * 1.0) * 100) =
      7881299347898369 / 2 ^ 50 := by
    rw [e5]
    unfold rnd
    rw [rhe_up 7881299347898368 (by norm_num) (by norm_num) (by norm_num)]
    norm_num
  refine ⟨⟨by norm_num, by norm_num⟩, ⟨?_, ?_⟩, ⟨?_, ?_⟩, by norm_num,
    by norm_num [adjust], ?_⟩
  · rw [e4]; norm_num
  · rw [e4]; norm_num
  · rw [e5]; norm_num
  · rw [e5]; norm_num
  · rw [e6]
    exact ceil_eval (by norm_num) (by norm_num)

/-- Claim C4.  For `v ≥ 0` and any multiplier, `adjust v m * 100` is an
integer (no fractional cents) and `adjust v m ≥ v * m - ε` for every
tolerance `ε ≥ 0` (never rounds down). -/
theorem adjust_no_fractional_cents_never_down (v m : ℚ) (_hv : 0 ≤ v) :
    (∃ k : ℤ, adjust v m * 100 = (k : ℚ)) ∧
      ∀ ε : ℚ, 0 ≤ ε → v * m - ε ≤ adjust v m := by
  constructor
  · exact ⟨⌈v * m * 100⌉, by rw [adjust]; field_simp⟩
  · intro ε hε
    have hle : v * m ≤ adjust v m := by
      rw [adjust, le_div_iff₀ (by norm_num : (0 : ℚ) < 100)]
      exact Int.le_ceil _
    linarith

/-- Witness for C4 at `v = 10`, `m = 1.06`. -/
theorem adjust_no_fractional_cents_never_down_witness :
    (∃ k : ℤ, adjust 10 1.06 * 100 = (k : ℚ)) ∧
      10 * 1.06 - 0 ≤ adjust 10 1.06 :=
  ⟨(adjust_no_fractional_cents_never_down 10 1.06 (by norm_num)).1,
    (adjust_no_fractional_cents_never_down 10 1.06 (by norm_num)).2 0 le_rfl⟩

/-! ### Python string primitives

Python `str` values are embedded as `List Char`.  `str.strip()` removes
ASCII whitespace from both ends. -/

/-- The whitespace characters removed by Python's `str.strip()`. -/
def isPySpace (c : Char) : Bool :=
  c = ' ' || c = '\t' || c = '\n' || c = '\r' || c = '\x0b' || c = '\x0c'

/-- Python `s.strip()`. -/
def pyStrip (cs : List Char) : List Char :=
  ((cs.dropWhile isPySpace).reverse.dropWhile isPySpace).reverse

/-- The numeric value of a digit string (most significant digit first). -/
def digitsToNat (ds : List Char) : ℕ :=
  ds.foldl (fun a c => 10 * a + (c.toNat - 48)) 0

theorem mem_dropWhile_of_not {α : Type} (p : α → Bool) {c : α} {l : List α}
    (h : c ∈ l) (hp : p c = false) : c ∈ l.dropWhile p := by
  have hsplit := List.takeWhile_append_dropWhile (p := p) (l := l)
  rw [← hsplit] at h
  rcases List.mem_append.mp h with h1 | h2
  · have := List.mem_takeWhile_imp h1
    rw [hp] at this
    cases this
  · exact h2

theorem mem_pyStrip {c : Char} {l : List Char} (h : c ∈ l)
    (hc : isPySpace c = false) : c ∈ pyStrip l := by
  unfold pyStrip
  rw [List.mem_reverse]
  refine mem_dropWhile_of_not _ ?_ hc
  rw [List.mem_reverse]
  exact mem_dropWhile_of_not _ h hc

/-! ### A model of Python `float(str)` on decimal literals

`float()` strips whitespace, then accepts an optional sign, digits with an
optional fractional part (at least one digit overall), and an optional
decimal exponent.  Exotic literals (`inf`, `nan`, underscore separators)
are outside the model.  Parsed values are exact rationals. -/

/-- Parse the part after `e`/`E`: optional sign, then a nonempty digit run. -/
def parseExp (m : ℚ) (cs : List Char) : Option ℚ :=
  match cs with
  | [] => none
  | c :: r =>
    if c = '+' then
      if r ≠ [] ∧ r.all Char.isDigit then some (m * 10 ^ digitsToNat r) else none
    else if c = '-' then
      if r ≠ [] ∧ r.all Char.isDigit then some (m / 10 ^ digitsToNat r) else none
    else if (c :: r).all Char.isDigit then some (m * 10 ^ digitsToNat (c :: r))
    else none

/-- Parse what follows the decimal point, given the integer digits `ip`. -/
def parseFrac (ip : List Char) (cs : List Char) : Option ℚ :=
  let fs := cs.takeWhile Char.isDigit
  if ip.isEmpty ∧ fs.isEmpty then none
  else
    match cs.dropWhile Char.isDigit with
    | [] => some ((digitsToNat ip : ℚ) + (digitsToNat fs : ℚ) / 10 ^ fs.length)
    | c :: r =>
      if c = 'e' ∨ c = 'E' then
        parseExp ((digitsToNat ip : ℚ) + (digitsToNat fs : ℚ) / 10 ^ fs.length) r
      else none

/-- Parse an unsigned decimal literal. -/
def parseUnsigned (cs : List Char) : Option ℚ :=
  let ds := cs.takeWhile Char.isDigit
  match cs.dropWhile Char.isDigit with
  | [] => if ds.isEmpty then none else some ((digitsToNat ds : ℚ))
  | c :: r =>
    if c = '.' then parseFrac ds r
    else if c = 'e' ∨ c = 'E' then
      if ds.isEmpty then none else parseExp ((digitsToNat ds : ℚ)) r
    else none

/-- Python `float(s)` on decimal literals. -/
def pyFloat (cs : List Char) : Option ℚ :=
  match pyStrip cs with
  | [] => none
  | c :: r =>
    if c = '+' then parseUnsigned r
    else if c = '-' then (parseUnsigned r).map Neg.neg
    else parseUnsigned (c :: r)

theorem all_digit_false {cs : List Char} (h : '%' ∈ cs) :
    cs.all Char.isDigit = false := by
  rcases Bool.eq_false_or_eq_true (cs.all Char.isDigit) with ht | hf
  · exact absurd (List.all_eq_true.mp ht '%' h) (by decide)
  · exact hf

theorem parseExp_pct (m : ℚ) {cs : List Char} (h : '%' ∈ cs) :
    parseExp m cs = none := by
  cases cs with
  | nil => rfl
  | cons c r =>
    simp only [parseExp]
    rcases List.mem_cons.mp h with hc | hr
    · subst hc
      simp [all_digit_false h]
    · simp [all_digit_false hr, all_digit_false h]

theorem parseFrac_pct (ip : List Char) {cs : List Char} (h : '%' ∈ cs) :
    parseFrac ip cs = none := by
  have hd : '%' ∈ cs.dropWhile Char.isDigit :=
    mem_dropWhile_of_not _ h (by decide)
  simp only [parseFrac]
  split_ifs with h1
  · rfl
  · cases hdw : cs.dropWhile Char.isDigit with
    | nil => rw [hdw] at hd; cases hd
    | cons c r =>
      rw [hdw] at hd
      simp only
      split_ifs with h2
      · rcases List.mem_cons.mp hd with hc | hr
        · rcases h2 with h2 | h2 <;> (rw [← hc] at h2; cases h2)
        · exact parseExp_pct _ hr
      · rfl

theorem parseUnsigned_pct {cs : List Char} (h : '%' ∈ cs) :
    parseUnsigned cs = none := by
  have hd : '%' ∈ cs.dropWhile Char.isDigit :=
    mem_dropWhile_of_not _ h (by decide)
  simp only [parseUnsigned]
  cases hdw : cs.dropWhile Char.isDigit with
  | nil => rw [hdw] at hd; cases hd
  | cons c r =>
    rw [hdw] at hd
    simp only
    split_ifs with h1 h2 h3
    · rcases List.mem_cons.mp hd with hc | hr
      · rw [← hc] at h1; cases h1
      · exact parseFrac_pct _ hr
    · rfl
    · rcases List.mem_cons.mp hd with hc | hr
      · rcases h2 with h2 | h2 <;> (rw [← hc] at h2; cases h2)
      · exact parseExp_pct _ hr
    · rfl

theorem pyFloat_pct {cs : List Char} (h : '%' ∈ cs) : pyFloat cs = none := by
  have hs : '%' ∈ pyStrip cs := mem_pyStrip h (by decide)
  simp only [pyFloat]
  cases hps : pyStrip cs with
  | nil => rfl
  | cons c r =>
    rw [hps] at hs
    simp only
    split_ifs with h1 h2
    · rcases List.mem_cons.mp hs with hc | hr
      · rw [← hc] at h1; cases h1
      · exact parseUnsigned_pct hr
    · rcases List.mem_cons.mp hs with hc | hr
      · rw [← hc] at h2; cases h2
      · rw [parseUnsigned_pct hr]; rfl
    · exact parseUnsigned_pct hs

/-! ### parse_percentage (lines 36–69)

Strip whitespace; if the string ends with `%`, fail when more than one `%`
occurs, otherwise drop the final `%`; convert with `float`; the multiplier
is `1 + value / 100`.  `none` models the raised `ValueError`. -/

/-- `parse_percentage` from the source. -/
def parse_percentage (cs : List Char) : Option ℚ :=
  let clean := pyStrip cs
  match clean.reverse with
  | [] => (pyFloat clean).map fun v => 1 + v / 100
  | c :: r =>
    if c = '%' then
      if clean.count '%' ≠ 1 then none
      else (pyFloat r.reverse).map fun v => 1 + v / 100
    else (pyFloat clean).map fun v => 1 + v / 100

/-- Modelled from the claim's wording: strip at most one trailing `%`. -/
def stripOnePct (cs : List Char) : List Char :=
  match cs.reverse with
  | [] => cs
  | c :: r => if c = '%' then r.reverse else cs

/-- Claim C3.  After trimming whitespace and stripping at most one trailing
`%`, a remainder that parses as a decimal number with value `v` yields the
multiplier `1 + v / 100`, and any other input — in particular one with more
than one `%` — fails; `parse("6") = parse("6%") = 1.06`,
`parse("-1.5%") = 0.985`, and `parse("6%%")` and `parse("abc")` fail. -/
theorem parse_percentage_spec :
    (∀ cs : List Char,
        parse_percentage cs =
          (pyFloat (stripOnePct (pyStrip cs))).map fun v => 1 + v / 100) ∧
      parse_percentage "6".toList = some 1.06 ∧
      parse_percentage "6%".toList = some 1.06 ∧
      parse_percentage "-1.5%".toList = some 0.985 ∧
      parse_percentage "6%%".toList = none ∧
      parse_percentage "abc".toList = none := by
  refine ⟨fun cs => ?_, ?_, ?_, ?_, rfl, rfl⟩
  · unfold parse_percentage stripOnePct
    cases hrev : (pyStrip cs).reverse with
    | nil => simp only [hrev]
    | cons c r =>
      simp only [hrev]
      by_cases hc : c = '%'
      · rw [if_pos hc, if_pos hc]
        by_cases hcount : (pyStrip cs).count '%' = 1
        · simp [hcount]
        · rw [if_pos hcount]
          have hcs : pyStrip cs = r.reverse ++ [c] := by
            have := congrArg List.reverse hrev
            rwa [List.reverse_reverse, List.reverse_cons] at this
          have hpos : 0 < (r.reverse).count '%' := by
            rcases Nat.eq_zero_or_pos ((r.reverse).count '%') with h0 | h0
            · exfalso
              apply hcount
              rw [hcs, List.count_append, h0, hc]
              simp
            · exact h0
          have hmem : '%' ∈ r.reverse := List.count_pos_iff.mp hpos
          rw [pyFloat_pct hmem]
          rfl
      · rw [if_neg hc, if_neg hc]
  · have h : parse_percentage "6".toList = some (1 + (6 : ℚ) / 100) := rfl
    rw [h]; norm_num
  · have h : parse_percentage "6%".toList = some (1 + (6 : ℚ) / 100) := rfl
    rw [h]; norm_num
  · have h : parse_percentage "-1.5%".toList =
        some (1 + -((1 : ℚ) + 5 / 10 ^ 1) / 100) := rfl
    rw [h]; norm_num

/-! ### The pricing document and update_pricing_file (lines 88–105)

A JSON row is an association list from field names to values.  The numeric
test in the source is `isinstance(row[tier], (int, float))`, which is true
for Python booleans as well (`bool` is a subclass of `int`); `True` counts
as `1` and `False` as `0` in arithmetic. -/

/-- A JSON scalar value as stored in a row. -/
inductive Value where
  | num : ℚ → Value
  | bool : Bool → Value
  | str : String → Value
  | null : Value
deriving DecidableEq

/-- `isinstance(v, (int, float))` — true for numbers and booleans. -/
def Value.isNumeric : Value → Bool
  | .num _ => true
  | .bool _ => true
  | _ => false

/-- The numeric value used in arithmetic (`True` is 1, `False` is 0). -/
def Value.toRat : Value → ℚ
  | .num q => q
  | .bool b => if b then 1 else 0
  | _ => 0

/-- One pricing row: a field-name-to-value mapping with insertion order. -/
def Row : Type := List (String × Value)

/-- One pass for a single tier name:
`if tier in row and isinstance(row[tier], (int, float)): row[tier] = ...`. -/
def updateRowTier (mult : ℚ) (row : Row) (tier : String) : Row :=
  row.map fun kv =>
    if kv.1 = tier ∧ kv.2.isNumeric = true then
      (kv.1, Value.num (adjust kv.2.toRat mult))
    else kv

/-- The inner loop of `update_pricing_file`: tiers in declared order. -/
def updateRow (tiers : List String) (mult : ℚ) (row : Row) : Row :=
  tiers.foldl (updateRowTier mult) row

/-- The parsed pricing document: `data['pricable']` and `data['rows']`. -/
structure PriceDocument where
  pricable : List String
  rows : List Row

/-- `update_pricing_file`, restricted to its in-memory document update. -/
def update_pricing_file (mult : ℚ) (doc : PriceDocument) : PriceDocument :=
  { doc with rows := doc.rows.map (updateRow doc.pricable mult) }

theorem isNumeric_num (q : ℚ) : (Value.num q).isNumeric = true := rfl

theorem updateRow_eq (m : ℚ) (tiers : List String) (hnd : tiers.Nodup)
    (row : Row) :
    updateRow tiers m row =
      row.map fun kv =>
        if kv.1 ∈ tiers ∧ kv.2.isNumeric = true then
          (kv.1, Value.num (adjust kv.2.toRat m))
        else kv := by
  induction tiers generalizing row with
  | nil =>
    rw [updateRow, List.foldl_nil]
    refine ((List.map_congr_left fun kv _ => ?_).trans (List.map_id row)).symm
    simp
  | cons t ts ih =>
    obtain ⟨hts, hnd'⟩ := List.nodup_cons.mp hnd
    show updateRow ts m (updateRowTier m row t) = _
    rw [ih hnd', updateRowTier, List.map_map]
    refine List.map_congr_left fun kv _ => ?_
    rcases kv with ⟨k, v⟩
    simp only [Function.comp_apply]
    by_cases hkt : k = t
    · subst hkt
      by_cases hnum : v.isNumeric = true
      · simp [hnum, hts, isNumeric_num]
      · simp [hnum]
    · simp [hkt, List.mem_cons]

/-- Counterexample to claim C5 as stated: with a duplicated tier name in
`pricable`, the field is adjusted once per occurrence, not once. -/
theorem update_duplicate_tier_counterexample :
    ¬ ∀ (doc : PriceDocument) (m : ℚ),
        (update_pricing_file m doc).rows =
          doc.rows.map fun row =>
            row.map fun kv =>
              if kv.1 ∈ doc.pricable ∧ kv.2.isNumeric = true then
                (kv.1, Value.num (adjust kv.2.toRat m))
              else kv := by
  intro hclaim
  have h := hclaim ⟨["a", "a"], [[("a", Value.num 10)]]⟩ (53 / 50)
  have hL : update_pricing_file (53 / 50) ⟨["a", "a"], [[("a", Value.num 10)]]⟩ =
      ⟨["a", "a"], [[("a", Value.num (adjust (adjust 10 (53 / 50)) (53 / 50)))]]⟩ :=
    rfl
  rw [hL] at h
  simp [Value.isNumeric, Value.toRat] at h
  have h1 : adjust 10 (53 / 50) = 53 / 5 := by
    norm_num [adjust]
  have h2 : adjust (53 / 5) (53 / 50) = 281 / 25 := by
    have hq : (53 / 5 : ℚ) * (53 / 50) * 100 = 5618 / 5 := by norm_num
    have hc : (⌈(53 / 5 : ℚ) * (53 / 50) * 100⌉ : ℤ) = 1124 := by
      rw [hq]; exact ceil_eval (by norm_num) (by norm_num)
    rw [adjust, hc]; norm_num
  rw [h1, h2] at h
  rw [List.cons.injEq] at h
  obtain ⟨h4, -⟩ := h
  have h5 := congrArg Prod.snd h4
  injection h5 with h6
  norm_num at h6

/-- Claim C5 (amended: `pricable` without duplicate names).  `update`
replaces a field with `adjust(old, m)` exactly when its name is pricable
and its value numeric; all other fields pass through unchanged, and an
empty `pricable` list makes the update a no-op. -/
theorem update_adjusts_exactly_pricable_numeric (doc : PriceDocument) (m : ℚ)
    (hnd : doc.pricable.Nodup) :
    (update_pricing_file m doc).rows =
      (doc.rows.map fun row =>
        row.map fun kv =>
          if kv.1 ∈ doc.pricable ∧ kv.2.isNumeric = true then
            (kv.1, Value.num (adjust kv.2.toRat m))
          else kv) ∧
      (doc.pricable = [] → update_pricing_file m doc = doc) := by
  constructor
  · simp only [update_pricing_file]
    exact List.map_congr_left fun row _ => updateRow_eq m doc.pricable hnd row
  · intro hemp
    rcases doc with ⟨pricable, rows⟩
    simp only at hemp
    subst hemp
    simp only [update_pricing_file, PriceDocument.mk.injEq, true_and]
    exact (List.map_congr_left fun row _ =>
      (rfl : updateRow [] m row = id row)).trans (List.map_id rows)

/-- Witness for C5 on the end-to-end scenario from the spec:
`pricable = ["small", "large"]`, multiplier 1.10. -/
theorem update_adjusts_exactly_pricable_numeric_witness :
    (["small", "large"] : List String).Nodup ∧
      (update_pricing_file (11 / 10)
          ⟨["small", "large"],
            [[("size", Value.str "S"), ("small", Value.num 10),
              ("large", Value.num 20), ("other", Value.num 5)]]⟩).rows =
        [[("size", Value.str "S"), ("small", Value.num 11),
          ("large", Value.num 22), ("other", Value.num 5)]] := by
  refine ⟨by decide, ?_⟩
  have h := (update_adjusts_exactly_pricable_numeric
    ⟨["small", "large"],
      [[("size", Value.str "S"), ("small", Value.num 10),
        ("large", Value.num 20), ("other", Value.num 5)]]⟩
    (11 / 10) (by decide)).1
  rw [h]
  have h1 : adjust 10 (11 / 10) = 11 := by norm_num [adjust]
  have h2 : adjust 20 (11 / 10) = 22 := by norm_num [adjust]
  have hR :
      ([[("size", Value.str "S"), ("small", Value.num 10),
          ("large", Value.num 20), ("other", Value.num 5)]] : List Row).map
        (fun row =>
          row.map fun kv =>
            if kv.1 ∈ (["small", "large"] : List String) ∧
                kv.2.isNumeric = true then
              (kv.1, Value.num (adjust kv.2.toRat (11 / 10)))
            else kv) =
        [[("size", Value.str "S"), ("small", Value.num (adjust 10 (11 / 10))),
          ("large", Value.num (adjust 20 (11 / 10))), ("other", Value.num 5)]] :=
    rfl
  rw [hR, h1, h2]

/-- Claim C9.  A pricable boolean field passes the numeric test and is
replaced by `adjust` of its integer interpretation (`True` ↦ 1, `False` ↦ 0);
with multiplier 1.06 a `true` value becomes 1.06.  A string value, by
contrast, passes through unchanged. -/
theorem bool_treated_as_numeric (k : String) (b : Bool) (m : ℚ) :
    (Value.bool b).isNumeric = true ∧
      updateRow [k] m [(k, Value.bool b)] =
        [(k, Value.num (adjust (if b then 1 else 0) m))] ∧
      updateRow ["t"] (53 / 50) [("t", Value.bool true)] =
        [("t", Value.num (53 / 50))] ∧
      updateRow ["t"] (53 / 50) [("t", Value.str "x")] =
        [("t", Value.str "x")] := by
  refine ⟨rfl, ?_, ?_, by simp [updateRow, updateRowTier, Value.isNumeric]⟩
  · simp [updateRow, updateRowTier, Value.isNumeric, Value.toRat]
  · have hL : updateRow ["t"] (53 / 50) [("t", Value.bool true)] =
        [("t", Value.num (adjust 1 (53 / 50)))] := rfl
    have h1 : adjust 1 (53 / 50) = 53 / 50 := by norm_num [adjust]
    rw [hL, h1]

/-! ### get_matching_files (lines 113–130)

`glob('*.json')` is modelled by an arbitrary candidate list; `keyword in
file` is substring containment; `sorted(...)` sorts by Python's string
order, i.e. lexicographically by code point. -/

/-- `a` is an initial segment of `b` (Python `b.startswith(a)`). -/
def leadsWith : List Char → List Char → Bool
  | [], _ => true
  | _ :: _, [] => false
  | a :: as, b :: bs => (a == b) && leadsWith as bs

/-- Python's `kw in hay` substring test. -/
def subIn (kw : List Char) : List Char → Bool
  | [] => kw.isEmpty
  | c :: t => leadsWith kw (c :: t) || subIn kw t

/-- Python string comparison `a <= b`: lexicographic by code point. -/
def charListLe : List Char → List Char → Bool
  | [], _ => true
  | _ :: _, [] => false
  | a :: as, b :: bs =>
    if a < b then true else if b < a then false else charListLe as bs

/-- The order used by Python's `sorted` on file names. -/
def pyLe (a b : String) : Prop := charListLe a.toList b.toList = true

instance : DecidableRel pyLe := fun a b =>
  instDecidableEqBool (charListLe a.toList b.toList) true

theorem leadsWith_iff : ∀ a b : List Char, leadsWith a b = true ↔ a <+: b
  | [], b => by simp [leadsWith]
  | a :: as, [] => by simp [leadsWith]
  | a :: as, b :: bs => by
    rw [leadsWith, Bool.and_eq_true, beq_iff_eq, leadsWith_iff as bs,
      List.cons_prefix_cons]

theorem subIn_iff : ∀ (hay kw : List Char), subIn kw hay = true ↔ kw <:+: hay
  | [], kw => by
    simp [subIn, List.isEmpty_iff]
  | c :: t, kw => by
    rw [subIn, Bool.or_eq_true, leadsWith_iff, subIn_iff t kw,
      List.infix_cons_iff]

theorem charListLe_total : ∀ a b : List Char,
    charListLe a b = true ∨ charListLe b a = true
  | [], _ => Or.inl rfl
  | _ :: _, [] => Or.inr rfl
  | a :: as, b :: bs => by
    rcases lt_trichotomy a b with h | h | h
    · left; simp [charListLe, h]
    · subst h
      rcases charListLe_total as bs with h2 | h2
      · left; simp [charListLe, lt_irrefl, h2]
      · right; simp [charListLe, lt_irrefl, h2]
    · right; simp [charListLe, h]

theorem charListLe_trans : ∀ a b c : List Char,
    charListLe a b = true → charListLe b c = true → charListLe a c = true
  | [], _, _, _, _ => rfl
  | _ :: _, [], _, hab, _ => by simp [charListLe] at hab
  | _ :: _, _ :: _, [], _, hbc => by simp [charListLe] at hbc
  | a :: as, b :: bs, c :: cs, hab, hbc => by
    rw [charListLe] at hab hbc ⊢
    by_cases h1 : a < b
    · by_cases h2 : b < c
      · simp [lt_trans h1 h2]
      · rw [if_neg h2] at hbc
        by_cases h3 : c < b
        · rw [if_pos h3] at hbc; cases hbc
        · have hbc_eq : b = c := le_antisymm (not_lt.mp h3) (not_lt.mp h2)
          simp [hbc_eq ▸ h1]
    · rw [if_neg h1] at hab
      by_cases h4 : b < a
      · rw [if_pos h4] at hab; cases hab
      · rw [if_neg h4] at hab
        have hab_eq : a = b := le_antisymm (not_lt.mp h4) (not_lt.mp h1)
        subst hab_eq
        by_cases h2 : a < c
        · simp [h2]
        · rw [if_neg h2] at hbc ⊢
          by_cases h3 : c < a
          · rw [if_pos h3] at hbc; cases hbc
          · rw [if_neg h3] at hbc ⊢
            exact charListLe_trans as bs cs hab hbc

instance : IsTrans String pyLe :=
  ⟨fun _ _ _ hab hbc => charListLe_trans _ _ _ hab hbc⟩

instance : IsTotal String pyLe := ⟨fun _ _ => charListLe_total _ _⟩

theorem charListLe_iff_lex : ∀ a b : List Char,
    charListLe a b = true ↔ a = b ∨ List.Lex (· < ·) a b
  | [], [] => by simp [charListLe]
  | [], b :: bs => by
    simp only [charListLe, true_iff]
    exact Or.inr List.Lex.nil
  | a :: as, [] => by
    constructor
    · intro h; simp [charListLe] at h
    · rintro (h | h)
      · cases h
      · cases h
  | a :: as, b :: bs => by
    rw [charListLe]
    constructor
    · intro h
      by_cases h1 : a < b
      · exact Or.inr (List.Lex.rel h1)
      · rw [if_neg h1] at h
        by_cases h2 : b < a
        · rw [if_pos h2] at h; cases h
        · rw [if_neg h2] at h
          have heq : a = b := le_antisymm (not_lt.mp h2) (not_lt.mp h1)
          subst heq
          rcases (charListLe_iff_lex as bs).mp h with h3 | h3
          · exact Or.inl (by rw [h3])
          · exact Or.inr (List.Lex.cons h3)
    · rintro (h | h)
      · cases h
        simp [lt_irrefl, (charListLe_iff_lex as as).mpr (Or.inl rfl)]
      · cases h with
        | rel h1 => simp [h1]
        | cons h1 =>
          simp [lt_irrefl, (charListLe_iff_lex as bs).mpr (Or.inr h1)]

/-- The keyword loop: a file matches when ANY keyword occurs in its name. -/
def matchesAny (keywords : List String) (file : String) : Bool :=
  keywords.any fun kw => subIn kw.toList file.toList

/-- `get_matching_files` from the source.  The first component records
whether the unscoped-operation safety warning was printed. -/
def get_matching_files (keywords : Option (List String))
    (json_files : List String) : Bool × List String :=
  match keywords with
  | none => (true, List.insertionSort pyLe json_files)
  | some kws =>
    (false, List.insertionSort pyLe (json_files.filter (matchesAny kws)))

/-- Claim C7.  With keywords, a file is selected iff some keyword is a
substring of its name; with no keyword list every candidate is selected and
the safety warning is emitted; the result is always sorted by `pyLe`, which
is exactly code-point lexicographic order; and the spec's discovery example
holds. -/
theorem discovery_keyword_or_sorted (json_files : List String)
    (keywords : Option (List String)) :
    (keywords = none →
      get_matching_files keywords json_files =
          (true, List.insertionSort pyLe json_files) ∧
        ∀ f, f ∈ (get_matching_files keywords json_files).2 ↔
          f ∈ json_files) ∧
      (∀ kws, keywords = some kws →
        (get_matching_files keywords json_files).1 = false ∧
          ∀ f, f ∈ (get_matching_files keywords json_files).2 ↔
            f ∈ json_files ∧ ∃ kw ∈ kws, kw.toList <:+: f.toList) ∧
      List.Sorted pyLe (get_matching_files keywords json_files).2 ∧
      (∀ a b : String, pyLe a b ↔
        a.toList = b.toList ∨ List.Lex (· < ·) a.toList b.toList) ∧
      get_matching_files (some ["dog"])
          ["a-dog.json", "b-cat.json", "c-dog-tag.json"] =
        (false, ["a-dog.json", "c-dog-tag.json"]) := by
  refine ⟨?_, ?_, ?_, fun a b => charListLe_iff_lex _ _, by decide⟩
  · rintro rfl
    refine ⟨rfl, fun f => ?_⟩
    exact (List.perm_insertionSort pyLe json_files).mem_iff
  · rintro kws rfl
    refine ⟨rfl, fun f => ?_⟩
    rw [show (get_matching_files (some kws) json_files).2 =
        List.insertionSort pyLe (json_files.filter (matchesAny kws)) from rfl,
      (List.perm_insertionSort pyLe _).mem_iff, List.mem_filter]
    constructor
    · rintro ⟨hmem, hmatch⟩
      refine ⟨hmem, ?_⟩
      obtain ⟨kw, hkw, hsub⟩ := List.any_eq_true.mp hmatch
      exact ⟨kw, hkw, (subIn_iff _ _).mp hsub⟩
    · rintro ⟨hmem, kw, hkw, hsub⟩
      exact ⟨hmem, List.any_eq_true.mpr ⟨kw, hkw, (subIn_iff _ _).mpr hsub⟩⟩
  · cases keywords with
    | none => exact List.sorted_insertionSort pyLe json_files
    | some kws => exact List.sorted_insertionSort pyLe _

/-- Witness for C7 on the spec's discovery scenario. -/
theorem discovery_keyword_or_sorted_witness :
    (get_matching_files (some ["dog"])
        ["a-dog.json", "b-cat.json", "c-dog-tag.json"]).1 = false ∧
      "a-dog.json" ∈ (get_matching_files (some ["dog"])
        ["a-dog.json", "b-cat.json", "c-dog-tag.json"]).2 := by
  constructor
  · exact ((discovery_keyword_or_sorted
      ["a-dog.json", "b-cat.json", "c-dog-tag.json"] (some ["dog"])).2.1
      ["dog"] rfl).1
  · refine (((discovery_keyword_or_sorted
      ["a-dog.json", "b-cat.json", "c-dog-tag.json"] (some ["dog"])).2.1
      ["dog"] rfl).2 "a-dog.json").mpr ⟨by decide, "dog", by decide, ?_⟩
    exact ⟨"a-".toList, ".json".toList, by decide⟩

/-! ### interactive_file_selection (lines 132–169)

One console read is `input().strip().lower()`.  The comma-separated indices
are parsed with `int(x.strip())`; a parse failure or any out-of-range index
rejects the whole input and re-prompts.  The prompt loop is modelled on the
finite script of inputs the user will type: `none` means every supplied
input was rejected and the loop is still waiting. -/

/-- `.strip().lower()` applied to a console line. -/
def pyNorm (s : String) : List Char := (pyStrip s.toList).map Char.toLower

/-- Python `int(x)` on an already-stripped decimal string. -/
def pyInt (cs : List Char) : Option ℤ :=
  match pyStrip cs with
  | [] => none
  | c :: r =>
    if c = '+' then
      if r ≠ [] ∧ r.all Char.isDigit then some (digitsToNat r : ℤ) else none
    else if c = '-' then
      if r ≠ [] ∧ r.all Char.isDigit then some (-(digitsToNat r : ℤ)) else none
    else if (c :: r).all Char.isDigit then some (digitsToNat (c :: r) : ℤ)
    else none

/-- Python `selection.split(',')`. -/
def splitOnComma : List Char → List (List Char)
  | [] => [[]]
  | c :: t =>
    if c = ',' then [] :: splitOnComma t
    else
      match splitOnComma t with
      | [] => [[c]]
      | h :: t2 => (c :: h) :: t2

/-- `[int(x.strip()) for x in selection.split(',')]`: all parts must parse,
otherwise the whole comprehension raises `ValueError`. -/
def parseIndices : List (List Char) → Option (List ℤ)
  | [] => some []
  | p :: ps =>
    match pyInt p, parseIndices ps with
    | some i, some l => some (i :: l)
    | _, _ => none

/-- One round of the selection prompt.  `some files` is a completed
selection; `none` means the input was rejected and the loop re-prompts. -/
def processSelection (matching_files : List String) (inp : String) :
    Option (List String) :=
  if pyNorm inp = "none".toList ∨ pyNorm inp = "quit".toList ∨
      pyNorm inp = "exit".toList then
    some []
  else if pyNorm inp = "all".toList then some matching_files
  else
    match parseIndices (splitOnComma (pyNorm inp)) with
    | none => none
    | some idxs =>
      if idxs.all fun i => decide (1 ≤ i ∧ i ≤ (matching_files.length : ℤ))
      then some (idxs.map fun i => matching_files.getD (i - 1).toNat "")
      else none

/-- `interactive_file_selection`, run on a finite script of console inputs. -/
def interactive_file_selection (matching_files : List String) :
    List String → Option (List String)
  | [] => none
  | inp :: rest =>
    match processSelection matching_files inp with
    | some r => some r
    | none => interactive_file_selection matching_files rest

theorem parseIndices_keyword_none :
    parseIndices (splitOnComma "none".toList) = none ∧
      parseIndices (splitOnComma "quit".toList) = none ∧
      parseIndices (splitOnComma "exit".toList) = none ∧
      parseIndices (splitOnComma "all".toList) = none := by
  refine ⟨rfl, rfl, rfl, rfl⟩

/-- Claim C8.  An index input containing any out-of-range 1-based index is
rejected as a whole (no partial selection) and the loop re-prompts; an
input whose indices are all in range selects exactly those files; `all`
selects every candidate; `none`/`quit`/`exit` select nothing. -/
theorem selection_rejects_out_of_range (files : List String) (inp : String)
    (idxs : List ℤ) :
    (parseIndices (splitOnComma (pyNorm inp)) = some idxs →
      ((∃ i ∈ idxs, ¬(1 ≤ i ∧ i ≤ (files.length : ℤ))) →
          processSelection files inp = none) ∧
        ((∀ i ∈ idxs, 1 ≤ i ∧ i ≤ (files.length : ℤ)) →
          processSelection files inp =
            some (idxs.map fun i => files.getD (i - 1).toNat ""))) ∧
      (pyNorm inp = "all".toList → processSelection files inp = some files) ∧
      ((pyNorm inp = "none".toList ∨ pyNorm inp = "quit".toList ∨
          pyNorm inp = "exit".toList) → processSelection files inp = some []) ∧
      (∀ rest, processSelection files inp = none →
        interactive_file_selection files (inp :: rest) =
          interactive_file_selection files rest) := by
  refine ⟨?_, ?_, ?_, ?_⟩
  · intro hparse
    have hkw : ¬(pyNorm inp = "none".toList ∨ pyNorm inp = "quit".toList ∨
        pyNorm inp = "exit".toList) := by
      rintro (h | h | h)
      · rw [h, parseIndices_keyword_none.1] at hparse; cases hparse
      · rw [h, parseIndices_keyword_none.2.1] at hparse; cases hparse
      · rw [h, parseIndices_keyword_none.2.2.1] at hparse; cases hparse
    have hall : pyNorm inp ≠ "all".toList := by
      intro h
      rw [h, parseIndices_keyword_none.2.2.2] at hparse; cases hparse
    constructor
    · rintro ⟨i, hi, hbad⟩
      simp only [processSelection]
      rw [if_neg hkw, if_neg hall, hparse]
      refine if_neg fun hdec => ?_
      exact hbad (of_decide_eq_true (List.all_eq_true.mp hdec i hi))
    · intro hgood
      simp only [processSelection]
      rw [if_neg hkw, if_neg hall, hparse]
      exact if_pos (List.all_eq_true.mpr fun i hi =>
        decide_eq_true (hgood i hi))
  · intro hall
    have hkw : ¬(pyNorm inp = "none".toList ∨ pyNorm inp = "quit".toList ∨
        pyNorm inp = "exit".toList) := by
      rintro (h | h | h) <;> (rw [hall] at h; exact absurd h (by decide))
    simp only [processSelection]
    rw [if_neg hkw, if_pos hall]
  · intro hkw
    simp only [processSelection]
    rw [if_pos hkw]
  · intro rest hnone
    simp only [interactive_file_selection]
    rw [hnone]

/-- Witness for C8: against two candidates, the input `1,3` is rejected as
a whole and the loop moves on to the next prompt; with three candidates the
same input selects files 1 and 3; `all` selects everything. -/
theorem selection_rejects_out_of_range_witness :
    processSelection ["a", "b"] "1,3" = none ∧
      processSelection ["a", "b", "c"] "1,3" = some ["a", "c"] ∧
      interactive_file_selection ["a", "b"] ["1,3", "all"] = some ["a", "b"] := by
  have hrej := ((selection_rejects_out_of_range ["a", "b"] "1,3" [1, 3]).1
    (by decide)).1 ⟨3, by decide, by decide⟩
  refine ⟨hrej, ?_, ?_⟩
  · have h := ((selection_rejects_out_of_range ["a", "b", "c"] "1,3"
      [1, 3]).1 (by decide)).2 (by decide)
    rw [h]; decide
  · have hall := (selection_rejects_out_of_range ["a", "b"] "all" []).2.1
      (by decide)
    rw [(selection_rejects_out_of_range ["a", "b"] "1,3" [1, 3]).2.2.2
      ["all"] hrej]
    simp [interactive_file_selection, hall]

/-! ### The `__main__` control flow (lines 171–265)

The CLI arguments, the glob result, file existence, the interactive input
script, the confirmation answer and the per-file processing outcome are the
inputs; the output records the exit code, whether the extra confirmation
prompt was issued, and the processing attempts (file name with its per-file
success flag).  `none` models the program blocked forever at the prompt
because every scripted input was rejected. -/

/-- Parsed command-line arguments.  `files = []` models both an absent
`--files` flag and `--files` with no paths (both falsy in the source). -/
structure Args where
  percent : String
  files : List String
  all : Bool
  list : Bool
  keywords : Option (List String)

/-- Outcome of one run. -/
structure RunResult where
  exitCode : ℕ
  prompted : Bool
  runs : List (String × Bool)
deriving DecidableEq

/-- The per-file loop: `try: update_pricing_file(...) except: continue` —
every file is attempted no matter how earlier files fared. -/
def processFiles (proc : String → Bool) : List String → List (String × Bool)
  | [] => []
  | f :: rest => (f, proc f) :: processFiles proc rest

/-- Resolution of `files_to_process` (lines 217–235): explicit `--files`
filtered by existence, else all matching on `--all`, else interactive. -/
def resolveFiles (args : Args) (json_files : List String)
    (exists_on_disk : String → Bool) (inputs : List String) :
    Option (List String) :=
  if args.files ≠ [] then some (args.files.filter exists_on_disk)
  else if args.all then some (get_matching_files args.keywords json_files).2
  else
    interactive_file_selection (get_matching_files args.keywords json_files).2
      inputs

/-- The `__main__` block. -/
def pymain (args : Args) (json_files : List String)
    (exists_on_disk : String → Bool) (inputs : List String) (confirm : String)
    (proc : String → Bool) : Option RunResult :=
  match parse_percentage args.percent.toList with
  | none => some ⟨1, false, []⟩
  | some _ =>
    if args.list then some ⟨0, false, []⟩
    else
      match resolveFiles args json_files exists_on_disk inputs with
      | none => none
      | some files_to_process =>
        if files_to_process = [] then some ⟨0, false, []⟩
        else if ¬args.all ∧ 1 < files_to_process.length then
          if pyNorm confirm = "y".toList ∨ pyNorm confirm = "yes".toList then
            some ⟨0, true, processFiles proc files_to_process⟩
          else some ⟨0, true, []⟩
        else some ⟨0, false, processFiles proc files_to_process⟩

theorem processFiles_attempts_all (proc : String → Bool) :
    ∀ fs : List String, (processFiles proc fs).map Prod.fst = fs
  | [] => rfl
  | f :: rest => by
    rw [processFiles, List.map_cons, processFiles_attempts_all proc rest]

/-- Claim C6.  An invalid percentage expression exits with code 1 before
any file is touched; once the percentage parses, the run exits 0, and the
per-file loop attempts every selected file regardless of earlier per-file
failures. -/
theorem only_percentage_failure_aborts (args : Args) (json_files : List String)
    (exists_on_disk : String → Bool) (inputs : List String) (confirm : String)
    (proc : String → Bool) :
    (parse_percentage args.percent.toList = none →
      pymain args json_files exists_on_disk inputs confirm proc =
        some ⟨1, false, []⟩) ∧
      (parse_percentage args.percent.toList ≠ none →
        ∀ r, pymain args json_files exists_on_disk inputs confirm proc =
          some r → r.exitCode = 0) ∧
      (∀ fs, (processFiles proc fs).map Prod.fst = fs) := by
  refine ⟨?_, ?_, processFiles_attempts_all proc⟩
  · intro h
    simp only [pymain, h]
  · intro hne r hr
    rcases hp : parse_percentage args.percent.toList with _ | m
    · exact absurd hp hne
    · simp only [pymain, hp] at hr
      repeat' split at hr
      all_goals cases hr <;> rfl

/-- Witness for C6: the malformed percentage `abc` exits 1 touching
nothing, and the loop attempts the file after a failing one. -/
theorem only_percentage_failure_aborts_witness :
    pymain ⟨"abc", [], false, false, none⟩ [] (fun _ => true) [] ""
        (fun _ => true) = some ⟨1, false, []⟩ ∧
      (processFiles (fun f => f = "good.json")
        ["bad.json", "good.json"]).map Prod.fst = ["bad.json", "good.json"] :=
  ⟨(only_percentage_failure_aborts ⟨"abc", [], false, false, none⟩ []
      (fun _ => true) [] "" (fun _ => true)).1 (by decide),
    (only_percentage_failure_aborts ⟨"abc", [], false, false, none⟩ []
      (fun _ => true) [] "" (fun _ => true)).2.2 ["bad.json", "good.json"]⟩

/-- Claim C10.  With more than one selected file and without `--all`, the
run issues the extra confirmation prompt, and any answer other than
`y`/`yes` exits with code 0 before any selected file is attempted. -/
theorem confirmation_prompt_gate (args : Args) (json_files : List String)
    (exists_on_disk : String → Bool) (inputs : List String) (confirm : String)
    (proc : String → Bool) (ftp : List String) (m : ℚ)
    (hp : parse_percentage args.percent.toList = some m)
    (hl : args.list = false) (ha : args.all = false)
    (hres : resolveFiles args json_files exists_on_disk inputs = some ftp)
    (hlen : 1 < ftp.length) :
    (∀ r, pymain args json_files exists_on_disk inputs confirm proc =
      some r → r.prompted = true) ∧
      (pyNorm confirm ≠ "y".toList → pyNorm confirm ≠ "yes".toList →
        pymain args json_files exists_on_disk inputs confirm proc =
          some ⟨0, true, []⟩) := by
  have hemp : ftp ≠ [] := by
    intro h; rw [h] at hlen; cases hlen
  have hcond : ¬args.all ∧ 1 < ftp.length := by
    rw [ha]; exact ⟨Bool.false_ne_true, hlen⟩
  constructor
  · intro r hr
    simp only [pymain, hp, hl, if_false, hres, if_neg hemp, if_pos hcond] at hr
    by_cases hy : pyNorm confirm = "y".toList ∨ pyNorm confirm = "yes".toList
    · rw [if_pos hy] at hr; cases hr; rfl
    · rw [if_neg hy] at hr; cases hr; rfl
  · intro hy hyes
    simp only [pymain, hp, hl, if_false, hres, if_neg hemp, if_pos hcond]
    have hno : ¬(pyNorm confirm = "y".toList ∨
        pyNorm confirm = "yes".toList) := by
      rintro (h | h)
      · exact hy h
      · exact hyes h
    rw [if_neg hno]
    rfl

/-- Witness for C10: two explicit files, no `--all`, answer `n`. -/
theorem confirmation_prompt_gate_witness :
    pymain ⟨"6", ["f1", "f2"], false, false, none⟩ ["x.json"] (fun _ => true)
        [] "n" (fun _ => true) = some ⟨0, true, []⟩ := by
  have hp : parse_percentage ("6" : String).toList = some (1 + (6 : ℚ) / 100) :=
    rfl
  have hres : resolveFiles ⟨"6", ["f1", "f2"], false, false, none⟩ ["x.json"]
      (fun _ => true) [] = some ["f1", "f2"] := rfl
  exact (confirmation_prompt_gate ⟨"6", ["f1", "f2"], false, false, none⟩
    ["x.json"] (fun _ => true) [] "n" (fun _ => true) ["f1", "f2"]
    (1 + (6 : ℚ) / 100) hp rfl rfl hres (by decide)).2 (by decide) (by decide)

end UpdatePrices
